import Mathlib

/-!
Verification of the UVM assembler (`src/assembler.py`) and interpreter
(`src/interpreter.py`): a shallow embedding of the instruction codec, the
program assembler and the execution engine, with theorems checking the
specification's claims against it.
-/

set_option linter.unusedVariables false

deriving instance DecidableEq for Except

/-- The four operation mnemonics of `UVMAssembler.OPCODES`
(`src/assembler.py` lines 8-13).  The set is closed, so an unknown
operation name cannot be represented at all; the `UnknownOperation`
check of `parse_program` is absorbed by the type. -/
inductive Opcode where
  | LOAD_CONST
  | LOAD_MEM
  | STORE_MEM
  | ABS
deriving DecidableEq, Repr

/-- Numeric operation codes, `UVMAssembler.OPCODES`. -/
def OPCODES : Opcode → Nat
  | Opcode.LOAD_CONST => 58
  | Opcode.LOAD_MEM => 19
  | Opcode.STORE_MEM => 24
  | Opcode.ABS => 7

/-- Reverse lookup of a numeric code in `OPCODES`
(the `for name, code in self.OPCODES.items()` loop of
`disassemble_command`, lines 106-112); `none` models the
`UNKNOWN_<n>` fallback name. -/
def opcode_of_num (n : Nat) : Option Opcode :=
  if n = 58 then some Opcode.LOAD_CONST
  else if n = 19 then some Opcode.LOAD_MEM
  else if n = 24 then some Opcode.STORE_MEM
  else if n = 7 then some Opcode.ABS
  else none

/-- Validation and normalisation of one instruction,
`UVMAssembler.parse_program` lines 31-46.  For `LOAD_CONST` the operand
must lie in `[-0x10000, 0x1FFFF]` and a negative operand is folded to
`(1 <<< 17) + operand = 131072 + operand`; for the other operations the
operand must be a non-negative integer `≤ 0x7FFFFFFF`.  The validated
operand is always non-negative, so it is returned as a `Nat`
(via `Int.toNat`, which is value-preserving here). -/
def parse_command (opcode : Opcode) (operand : Int) : Except String Nat :=
  if opcode = Opcode.LOAD_CONST then
    if operand < -0x10000 ∨ operand > 0x1FFFF then
      Except.error ("constant out of range")
    else if operand < 0 then
      Except.ok (131072 + operand).toNat
    else
      Except.ok operand.toNat
  else
    if operand < 0 then
      Except.error ("address must be a non-negative integer")
    else if operand > 0x7FFFFFFF then
      Except.error ("address too large")
    else
      Except.ok operand.toNat

/-- The loop of `UVMAssembler.parse_program` (lines 24-52): validate
each `(opcode, operand)` record in order, failing fast on the first
invalid one. -/
def parse_program (commands : List (Opcode × Int)) : Except String (List (Opcode × Nat)) :=
  match commands with
  | [] => Except.ok []
  | c :: rest => do
    let v ← parse_command c.1 c.2
    let tail ← parse_program rest
    Except.ok ((c.1, v) :: tail)

/-- The four little-endian bytes of a 32-bit unsigned integer, as
produced for the second field of `struct.pack` with format `<BI`
(`assemble_to_bytes` line 83). -/
def le_uint32 (x : Nat) : List Nat :=
  [x % 256, x / 256 % 256, x / 65536 % 256, x / 16777216 % 256]

/-- Reassemble a 32-bit unsigned integer from its four little-endian
bytes, as done by `struct.unpack` with format `<BI`
(`disassemble_command` line 93). -/
def from_le_uint32 (b1 b2 b3 b4 : Nat) : Nat :=
  b1 + b2 * 256 + b3 * 65536 + b4 * 16777216

/-- Encoding of one validated instruction into 5 bytes,
`UVMAssembler.assemble_to_bytes` lines 65-84: for `LOAD_CONST` an
operand above `0x1FFFF` is first masked to 17 bits, then
`byte0 = opcode ||| ((operand &&& 0x3) <<< 6)`, `rest = operand >>> 2`,
and the result is `byte0` followed by the 4 little-endian bytes of
`rest`. -/
def encode_command (cmd : Opcode × Nat) : List Nat :=
  let opcode := OPCODES cmd.1
  let operand :=
    if cmd.1 = Opcode.LOAD_CONST ∧ 0x1FFFF < cmd.2 then cmd.2 &&& 0x1FFFF else cmd.2
  let byte0 := opcode ||| ((operand &&& 0x3) <<< 6)
  let rest := operand >>> 2
  byte0 :: le_uint32 rest

/-- `UVMAssembler.assemble_to_bytes`: concatenate the 5-byte encodings
of all instructions in input order (`binary_data += command_bytes`). -/
def assemble_to_bytes (internal_repr : List (Opcode × Nat)) : List Nat :=
  internal_repr.foldl (fun binary_data cmd => binary_data ++ encode_command cmd) []

/-- The record returned by `UVMAssembler.disassemble_command`
(lines 114-118): the mnemonic looked up from the numeric code
(`none` for the `UNKNOWN_<n>` fallback), the numeric code itself, and
the operand, sign-extended when the code is `LOAD_CONST`'s 58. -/
structure DisasmCommand where
  opcode : Option Opcode
  opcode_num : Nat
  operand : Int
deriving DecidableEq, Repr

/-- `UVMAssembler.disassemble_command` lines 88-118: requires exactly
5 bytes; extracts `opcode_num = byte0 &&& 0x3F`,
`operand = (rest <<< 2) ||| ((byte0 >>> 6) &&& 0x3)`, and for code 58
converts from 17-bit two's complement when bit `0x10000` is set
(`operand - (1 <<< 17) = operand - 131072`). -/
def disassemble_command (command_bytes : List Nat) : Except String DisasmCommand :=
  match command_bytes with
  | [byte0, b1, b2, b3, b4] =>
    let rest := from_le_uint32 b1 b2 b3 b4
    let opcode_num := byte0 &&& 0x3F
    let operand_low := (byte0 >>> 6) &&& 0x3
    let operandN := (rest <<< 2) ||| operand_low
    let operand : Int :=
      if opcode_num = 58 ∧ operandN &&& 0x10000 ≠ 0 then (operandN : Int) - 131072
      else (operandN : Int)
    Except.ok { opcode := opcode_of_num opcode_num, opcode_num := opcode_num, operand := operand }
  | _ => Except.error ("command must be 5 bytes long")

/-- The machine state of `UVMInterpreter` (`src/interpreter.py`
lines 4-9): a linear memory of signed integer cells, an accumulator,
a program counter and the halted flag. -/
structure UVMInterpreter where
  memory : List Int
  accumulator : Int
  pc : Nat
  halted : Bool
deriving DecidableEq, Repr

/-- `UVMInterpreter.__init__` with its default memory size of 2048
cells: all memory zero, accumulator 0, program counter 0, not halted. -/
def UVMInterpreter.init (memory_size : Nat := 2048) : UVMInterpreter :=
  { memory := List.replicate memory_size 0
    accumulator := 0
    pc := 0
    halted := false }

/-- `int.from_bytes(bs, 'little')`: a byte list read as a little-endian
unsigned integer. -/
def bytes_to_word (bs : List Nat) : Nat :=
  bs.foldr (fun byte acc => byte + 256 * acc) 0

/-- Instruction word `i` of a binary blob: the little-endian integer of
bytes `[5*i, 5*i+5)` (`load_program` line 26). -/
def word_at (binary_data : List Nat) (i : Nat) : Nat :=
  bytes_to_word ((binary_data.drop (5 * i)).take 5)

/-- `UVMInterpreter.load_program` lines 11-26: reject a blob whose
length is not a multiple of 5 before touching any state (the check
precedes every mutation, so failure leaves the machine unmodified);
otherwise reset memory, accumulator, program counter and halted flag,
then write instruction word `i` into memory cell `i` for every `i`
with `i < len(memory)` (words beyond the memory are skipped by the
`if i//5 < len(self.memory)` guard). -/
def load_program (s : UVMInterpreter) (binary_data : List Nat) : Except String UVMInterpreter :=
  if binary_data.length % 5 ≠ 0 then
    Except.error ("invalid program size")
  else
    let memory0 : List Int := List.replicate s.memory.length 0
    let memory :=
      (List.range (binary_data.length / 5)).foldl
        (fun m i => if i < m.length then m.set i (word_at binary_data i : Int) else m)
        memory0
    Except.ok { memory := memory, accumulator := 0, pc := 0, halted := false }

/-- `UVMInterpreter.decode_command` lines 28-37: split a 40-bit word as
`to_bytes(5, 'little')` followed by `struct.unpack` with format `<BI`
(`byte0 = word &&& 0xFF`, `rest = (word >>> 8) &&& 0xFFFFFFFF`), then
extract `opcode = byte0 &&& 0x3F` and
`operand = (rest <<< 2) ||| ((byte0 >>> 6) &&& 0x3)`. -/
def decode_command (command : Nat) : Nat × Nat :=
  let byte0 := command &&& 0xFF
  let rest := (command >>> 8) &&& 0xFFFFFFFF
  let opcode := byte0 &&& 0x3F
  let operand_low := (byte0 >>> 6) &&& 0x3
  (opcode, (rest <<< 2) ||| operand_low)

/-- `UVMInterpreter.execute_step` lines 39-83.  Returns the next state
and the boolean the Python method returns.  When halted or the program
counter is out of range, or the fetched word is 0, it returns `false`
with the state untouched.  Otherwise it decodes and dispatches:
`LOAD_CONST` (58) sign-extends the 17-bit operand and loads it;
`LOAD_MEM` (19) / `STORE_MEM` (24) check bounds then transfer between
memory and accumulator; `ABS` (7) first replaces the accumulator by its
absolute value, then checks bounds and stores it.  A bounds failure or
unknown opcode sets `halted` and returns `false` without advancing the
program counter; on success the program counter advances and `true` is
returned. -/
def execute_step (s : UVMInterpreter) : UVMInterpreter × Bool :=
  if s.halted ∨ s.pc ≥ s.memory.length then (s, false)
  else
    let command := s.memory.getD s.pc 0
    if command = 0 then (s, false)
    else
      let d := decode_command command.toNat
      let opcode := d.1
      let operand := d.2
      if opcode = 58 then
        let operandC : Int :=
          if operand &&& 0x10000 ≠ 0 then (operand : Int) - 131072 else (operand : Int)
        ({ s with accumulator := operandC, pc := s.pc + 1 }, true)
      else if opcode = 19 then
        if operand ≥ s.memory.length then ({ s with halted := true }, false)
        else ({ s with accumulator := s.memory.getD operand 0, pc := s.pc + 1 }, true)
      else if opcode = 24 then
        if operand ≥ s.memory.length then ({ s with halted := true }, false)
        else ({ s with memory := s.memory.set operand s.accumulator, pc := s.pc + 1 }, true)
      else if opcode = 7 then
        let acc2 : Int := |s.accumulator|
        if operand ≥ s.memory.length then
          ({ s with accumulator := acc2, halted := true }, false)
        else
          ({ s with accumulator := acc2, memory := s.memory.set operand acc2, pc := s.pc + 1 }, true)
      else ({ s with halted := true }, false)

/-- Run `execute_step` a given number of times, reporting whether every
step returned `true` (the driving pattern of `UVMInterpreter.run`,
bounded by an explicit step count). -/
def run_steps (s : UVMInterpreter) : Nat → UVMInterpreter × Bool
  | 0 => (s, true)
  | n + 1 =>
    let r := execute_step s
    if r.2 then run_steps r.1 n else (r.1, false)

/-! ### Arithmetic helpers for the bit-level codec -/

/-- Bitwise or of disjoint parts is addition: a multiple of `2 ^ k`
or-ed with a value below `2 ^ k`. -/
theorem or_mul_two_pow_add (a : Nat) : ∀ k b : Nat, b < 2 ^ k → a * 2 ^ k ||| b = a * 2 ^ k + b
  | 0, b, hb => by
    have hb0 : b = 0 := by omega
    subst hb0
    simp
  | k + 1, b, hb => by
    have hA : a * 2 ^ (k + 1) = a * 2 ^ k * 2 := by
      rw [Nat.pow_succ, Nat.mul_assoc]
    have hdiv : (a * 2 ^ (k + 1) ||| b) / 2 = a * 2 ^ k ||| b / 2 := by
      rw [Nat.or_div_two, hA, Nat.mul_div_cancel _ (by norm_num)]
    have ha : a * 2 ^ (k + 1) % 2 = 0 := by
      rw [hA]
      exact Nat.mul_mod_left (a * 2 ^ k) 2
    have hpar : (a * 2 ^ (k + 1) ||| b) % 2 = b % 2 := by
      rcases Nat.mod_two_eq_zero_or_one b with h2 | h2
      · rcases Nat.mod_two_eq_zero_or_one (a * 2 ^ (k + 1) ||| b) with h | h
        · omega
        · have hor := Nat.or_mod_two_eq_one.mp h
          omega
      · have hor : (a * 2 ^ (k + 1) ||| b) % 2 = 1 := Nat.or_mod_two_eq_one.mpr (Or.inr h2)
        omega
    have hp : (2 : Nat) ^ (k + 1) = 2 ^ k * 2 := Nat.pow_succ 2 k
    have hIH := or_mul_two_pow_add a k (b / 2) (by omega)
    have hx := Nat.div_add_mod (a * 2 ^ (k + 1) ||| b) 2
    omega

/-- Symmetric form of `or_mul_two_pow_add`. -/
theorem or_of_lt_two_pow {a k : Nat} (b : Nat) (ha : a < 2 ^ k) :
    a ||| b * 2 ^ k = b * 2 ^ k + a := by
  rw [Nat.or_comm]
  exact or_mul_two_pow_add b k a ha

/-- A single-bit mask test read arithmetically. -/
theorem and_two_pow_ne_zero_iff (n k : Nat) : n &&& 2 ^ k ≠ 0 ↔ n / 2 ^ k % 2 = 1 := by
  rw [Nat.and_two_pow, Nat.testBit_to_div_mod]
  by_cases h : n / 2 ^ k % 2 = 1 <;>
    simp [h, (Nat.two_pow_pos k).ne']

/-! ### Codec round-trip -/

/-- `disassemble_command` on an explicit 5-byte list, with the lets
unfolded. -/
theorem disassemble_cons (byte0 b1 b2 b3 b4 : Nat) :
    disassemble_command [byte0, b1, b2, b3, b4] =
      Except.ok
        { opcode := opcode_of_num (byte0 &&& 0x3F)
          opcode_num := byte0 &&& 0x3F
          operand :=
            if byte0 &&& 0x3F = 58 ∧
                ((from_le_uint32 b1 b2 b3 b4 <<< 2) ||| ((byte0 >>> 6) &&& 0x3)) &&& 0x10000 ≠ 0
            then (((from_le_uint32 b1 b2 b3 b4 <<< 2) ||| ((byte0 >>> 6) &&& 0x3) : Nat) : Int) - 131072
            else (((from_le_uint32 b1 b2 b3 b4 <<< 2) ||| ((byte0 >>> 6) &&& 0x3) : Nat) : Int) } :=
  rfl

/-- `encode_command` when the 17-bit mask branch is not taken. -/
theorem encode_command_eq (op : Opcode) (n : Nat) (h : ¬(op = Opcode.LOAD_CONST ∧ 0x1FFFF < n)) :
    encode_command (op, n) = (OPCODES op ||| ((n &&& 0x3) <<< 6)) :: le_uint32 (n >>> 2) := by
  simp only [encode_command, if_neg h]

/-- Disassembling an encoded instruction recovers the operation code
and the raw operand, with sign extension applied exactly when the code
is 58 and bit 16 of the operand is set. -/
theorem encode_disassemble (op : Opcode) (n : Nat) (hn : n ≤ 0x7FFFFFFF)
    (hc : op = Opcode.LOAD_CONST → n ≤ 0x1FFFF) :
    disassemble_command (encode_command (op, n)) =
      Except.ok
        { opcode := opcode_of_num (OPCODES op)
          opcode_num := OPCODES op
          operand :=
            if OPCODES op = 58 ∧ n / 65536 % 2 = 1 then (n : Int) - 131072
            else (n : Int) } := by
  have hmask : ¬(op = Opcode.LOAD_CONST ∧ 0x1FFFF < n) := by
    rintro ⟨h1, h2⟩
    have := hc h1
    omega
  have hcode : OPCODES op < 64 := by cases op <;> simp [OPCODES]
  rw [encode_command_eq op n hmask]
  simp only [le_uint32]
  rw [disassemble_cons]
  have hl : n &&& 0x3 = n % 4 := by
    have h := Nat.and_pow_two_sub_one_eq_mod n 2
    norm_num at h
    exact h
  have h64 : OPCODES op < 2 ^ 6 := by omega
  have hb0 : OPCODES op ||| (n &&& 0x3) <<< 6 = n % 4 * 64 + OPCODES op := by
    rw [hl, Nat.shiftLeft_eq, or_of_lt_two_pow (n % 4) h64]
    norm_num
  rw [hb0]
  have hshr : n >>> 2 = n / 4 := by
    rw [Nat.shiftRight_eq_div_pow]
  rw [hshr]
  have hfrom : from_le_uint32 (n / 4 % 256) (n / 4 / 256 % 256) (n / 4 / 65536 % 256)
      (n / 4 / 16777216 % 256) = n / 4 := by
    simp only [from_le_uint32]
    omega
  rw [hfrom]
  have hnum : (n % 4 * 64 + OPCODES op) &&& 0x3F = OPCODES op := by
    have h := Nat.and_pow_two_sub_one_eq_mod (n % 4 * 64 + OPCODES op) 6
    norm_num at h
    omega
  have hlow : ((n % 4 * 64 + OPCODES op) >>> 6) &&& 0x3 = n % 4 := by
    rw [Nat.shiftRight_eq_div_pow]
    have h := Nat.and_pow_two_sub_one_eq_mod ((n % 4 * 64 + OPCODES op) / 2 ^ 6) 2
    norm_num at h ⊢
    omega
  rw [hnum, hlow]
  have hopN : (n / 4) <<< 2 ||| n % 4 = n := by
    rw [Nat.shiftLeft_eq]
    have h := or_mul_two_pow_add (n / 4) 2 (n % 4) (by omega)
    norm_num at h ⊢
    omega
  rw [hopN]
  have hsign : (n &&& 0x10000 ≠ 0) = (n / 65536 % 2 = 1) := by
    have h := and_two_pow_ne_zero_iff n 16
    norm_num at h
    exact propext h
  simp only [hsign]

/-- `parse_command` specialised to `LOAD_CONST`, with the operation
test reduced. -/
theorem parse_command_const (z : Int) :
    parse_command Opcode.LOAD_CONST z =
      if z < -65536 ∨ 131071 < z then Except.error ("constant out of range")
      else if z < 0 then Except.ok (131072 + z).toNat
      else Except.ok z.toNat :=
  rfl

/-- `parse_command` specialised to the three address-taking
operations. -/
theorem parse_command_addr (op : Opcode) (hop : op ≠ Opcode.LOAD_CONST) (z : Int) :
    parse_command op z =
      if z < 0 then Except.error ("address must be a non-negative integer")
      else if 2147483647 < z then Except.error ("address too large")
      else Except.ok z.toNat := by
  cases op with
  | LOAD_CONST => exact absurd rfl hop
  | LOAD_MEM => rfl
  | STORE_MEM => rfl
  | ABS => rfl

/-! ### Claim theorems: assembler -/

/-- C1 counterexample: the claim fails as stated.  `LoadConst 65536`
is inside the claimed valid range `[-65536, 131071]`, validates
unchanged, but disassembling its encoding recovers operand `-65536`,
not `65536`: bit 16 of the folded value is set, so the decoder
sign-extends a value that was a positive constant. -/
theorem C1_roundtrip_cex :
    parse_command Opcode.LOAD_CONST 65536 = Except.ok 65536 ∧
    disassemble_command (encode_command (Opcode.LOAD_CONST, 65536)) =
      Except.ok { opcode := some Opcode.LOAD_CONST, opcode_num := 58, operand := -65536 } ∧
    (-65536 : Int) ≠ 65536 := by
  decide

/-- C1 (amended): for LoadConst operands in `[-65536, 65535]` (the
two's-complement 17-bit range) and for LoadMem/StoreMem/Abs operands in
`[0, 0x7FFFFFFF]`, validating/folding, encoding to 5 bytes and
disassembling reconstructs the same operation and operand exactly,
including sign recovery for negative LoadConst operands; LoadConst
operands in `[65536, 131071]` instead decode to `operand - 131072`
(shown by the counterexample). -/
theorem C1_roundtrip :
    (∀ z : Int, -65536 ≤ z → z ≤ 65535 →
       ∃ v, parse_command Opcode.LOAD_CONST z = Except.ok v ∧
         disassemble_command (encode_command (Opcode.LOAD_CONST, v)) =
           Except.ok { opcode := some Opcode.LOAD_CONST, opcode_num := 58, operand := z }) ∧
    (∀ op : Opcode, op ≠ Opcode.LOAD_CONST → ∀ z : Int, 0 ≤ z → z ≤ 0x7FFFFFFF →
       ∃ v, parse_command op z = Except.ok v ∧
         disassemble_command (encode_command (op, v)) =
           Except.ok { opcode := some op, opcode_num := OPCODES op, operand := z }) := by
  constructor
  · intro z h1 h2
    by_cases hz : z < 0
    · refine ⟨(131072 + z).toNat, ?_, ?_⟩
      · rw [parse_command_const]
        have h3 : ¬(z < -65536 ∨ 131071 < z) := by omega
        rw [if_neg h3, if_pos hz]
      · rw [encode_disassemble Opcode.LOAD_CONST _ (by omega) (fun _ => by omega)]
        have hsig : (131072 + z).toNat / 65536 % 2 = 1 := by omega
        have hcond : OPCODES Opcode.LOAD_CONST = 58 ∧ (131072 + z).toNat / 65536 % 2 = 1 :=
          ⟨rfl, hsig⟩
        rw [if_pos hcond]
        have hz2 : ((131072 + z).toNat : Int) - 131072 = z := by omega
        rw [hz2]
        rfl
    · refine ⟨z.toNat, ?_, ?_⟩
      · rw [parse_command_const]
        have h3 : ¬(z < -65536 ∨ 131071 < z) := by omega
        rw [if_neg h3, if_neg hz]
      · rw [encode_disassemble Opcode.LOAD_CONST _ (by omega) (fun _ => by omega)]
        have hcond : ¬(OPCODES Opcode.LOAD_CONST = 58 ∧ z.toNat / 65536 % 2 = 1) := by
          rintro ⟨-, h⟩
          omega
        rw [if_neg hcond]
        have hz2 : (z.toNat : Int) = z := by omega
        rw [hz2]
        rfl
  · intro op hop z h1 h2
    refine ⟨z.toNat, ?_, ?_⟩
    · rw [parse_command_addr op hop]
      have h0 : ¬(z < 0) := by omega
      have h3 : ¬((2147483647 : Int) < z) := by omega
      rw [if_neg h0, if_neg h3]
    · rw [encode_disassemble op _ (by omega) (fun h => absurd h hop)]
      have hcond : ¬(OPCODES op = 58 ∧ z.toNat / 65536 % 2 = 1) := by
        rintro ⟨h58, -⟩
        cases op with
        | LOAD_CONST => exact hop rfl
        | LOAD_MEM => exact absurd h58 (by decide)
        | STORE_MEM => exact absurd h58 (by decide)
        | ABS => exact absurd h58 (by decide)
      rw [if_neg hcond]
      have hz2 : (z.toNat : Int) = z := by omega
      rw [hz2]
      have hopn : opcode_of_num (OPCODES op) = some op := by cases op <;> rfl
      rw [hopn]

/-- Witness for C1: assembling `LoadConst -15` and decoding the
resulting 5 bytes yields operand `-15`. -/
theorem C1_roundtrip_witness :
    ∃ v, parse_command Opcode.LOAD_CONST (-15) = Except.ok v ∧
      disassemble_command (encode_command (Opcode.LOAD_CONST, v)) =
        Except.ok { opcode := some Opcode.LOAD_CONST, opcode_num := 58, operand := -15 } :=
  C1_roundtrip.1 (-15) (by norm_num) (by norm_num)

/-- C3: the literal 5-byte little-endian encodings of the four sample
instructions are exactly as specified. -/
theorem C3_literal_encodings :
    parse_program [(Opcode.LOAD_CONST, 308)] = Except.ok [(Opcode.LOAD_CONST, 308)] ∧
    assemble_to_bytes [(Opcode.LOAD_CONST, 308)] = [0x3A, 0x4D, 0x00, 0x00, 0x00] ∧
    parse_program [(Opcode.LOAD_MEM, 705)] = Except.ok [(Opcode.LOAD_MEM, 705)] ∧
    assemble_to_bytes [(Opcode.LOAD_MEM, 705)] = [0x53, 0xB0, 0x00, 0x00, 0x00] ∧
    parse_program [(Opcode.STORE_MEM, 791)] = Except.ok [(Opcode.STORE_MEM, 791)] ∧
    assemble_to_bytes [(Opcode.STORE_MEM, 791)] = [0xD8, 0xC5, 0x00, 0x00, 0x00] ∧
    parse_program [(Opcode.ABS, 870)] = Except.ok [(Opcode.ABS, 870)] ∧
    assemble_to_bytes [(Opcode.ABS, 870)] = [0x87, 0xD9, 0x00, 0x00, 0x00] := by
  decide

/-- C4: validation enforces the per-operation operand rules exactly.
For LoadConst acceptance is exactly the interval `[-65536, 131071]`
(with 131071 and -65536 accepted, 131072 and -65537 rejected with the
range error) and a negative operand is replaced by `operand + 131072`;
for the other three operations acceptance is exactly `[0, 0x7FFFFFFF]`
(with -1 and 0x80000000 rejected, 0x7FFFFFFF accepted). -/
theorem C4_validation :
    (∀ z : Int, (∃ v, parse_command Opcode.LOAD_CONST z = Except.ok v) ↔
       -65536 ≤ z ∧ z ≤ 131071) ∧
    (∀ z : Int, -65536 ≤ z → z < 0 →
       parse_command Opcode.LOAD_CONST z = Except.ok (z + 131072).toNat) ∧
    (∀ op : Opcode, op ≠ Opcode.LOAD_CONST →
       ∀ z : Int, (∃ v, parse_command op z = Except.ok v) ↔ 0 ≤ z ∧ z ≤ 0x7FFFFFFF) ∧
    (parse_command Opcode.LOAD_CONST 131071 = Except.ok 131071 ∧
     parse_command Opcode.LOAD_CONST 131072 = Except.error ("constant out of range") ∧
     parse_command Opcode.LOAD_CONST (-65536) = Except.ok 65536 ∧
     parse_command Opcode.LOAD_CONST (-65537) = Except.error ("constant out of range")) ∧
    (∀ op : Opcode, op ≠ Opcode.LOAD_CONST →
       parse_command op (-1) = Except.error ("address must be a non-negative integer") ∧
       parse_command op 0x7FFFFFFF = Except.ok 0x7FFFFFFF ∧
       parse_command op 0x80000000 = Except.error ("address too large")) := by
  refine ⟨?_, ?_, ?_, by decide, ?_⟩
  · intro z
    constructor
    · rintro ⟨v, hv⟩
      by_contra hr
      rw [parse_command_const] at hv
      have h3 : z < -65536 ∨ 131071 < z := by omega
      rw [if_pos h3] at hv
      simp at hv
    · rintro ⟨h1, h2⟩
      have h3 : ¬(z < -65536 ∨ 131071 < z) := by omega
      by_cases hz : z < 0
      · refine ⟨(131072 + z).toNat, ?_⟩
        rw [parse_command_const, if_neg h3, if_pos hz]
      · refine ⟨z.toNat, ?_⟩
        rw [parse_command_const, if_neg h3, if_neg hz]
  · intro z h1 h2
    have h3 : ¬(z < -65536 ∨ 131071 < z) := by omega
    rw [parse_command_const, if_neg h3, if_pos h2, Int.add_comm]
  · intro op hop z
    constructor
    · rintro ⟨v, hv⟩
      rw [parse_command_addr op hop] at hv
      by_contra hr
      rcases lt_or_le z 0 with hz | hz
      · rw [if_pos hz] at hv
        simp at hv
      · have h0 : ¬(z < 0) := by omega
        have h3 : (2147483647 : Int) < z := by omega
        rw [if_neg h0, if_pos h3] at hv
        simp at hv
    · rintro ⟨h1, h2⟩
      refine ⟨z.toNat, ?_⟩
      have h0 : ¬(z < 0) := by omega
      have h3 : ¬((2147483647 : Int) < z) := by omega
      rw [parse_command_addr op hop, if_neg h0, if_neg h3]
  · intro op hop
    rw [parse_command_addr op hop, parse_command_addr op hop, parse_command_addr op hop]
    exact ⟨by decide, by decide, by decide⟩

/-- Witness for C4: `LoadConst -15` validates to `-15 + 131072`. -/
theorem C4_validation_witness :
    parse_command Opcode.LOAD_CONST (-15) = Except.ok ((-15 : Int) + 131072).toNat :=
  C4_validation.2.1 (-15) (by norm_num) (by norm_num)

/-! ### Claim theorems: interpreter stepping -/

/-- C2 counterexample: the claim fails as stated.  On a freshly
initialised 10-cell machine the fetched word is 0, and `execute_step`
reports that no step was taken — but it leaves `halted` at `false`
instead of setting it to `true` as the claim requires. -/
theorem C2_halt_flag_cex :
    (UVMInterpreter.init 10).memory.getD (UVMInterpreter.init 10).pc 0 = 0 ∧
    execute_step (UVMInterpreter.init 10) = (UVMInterpreter.init 10, false) ∧
    (execute_step (UVMInterpreter.init 10)).1.halted = false := by
  decide

/-- C2 (amended): for every machine state in which the program counter
is at or beyond the memory length, or the fetched word
`memory[program_counter]` equals 0, `execute_step` executes no
instruction and reports that no further step was taken (it returns
`false`), leaving the whole state unchanged — in particular the
`halted` flag keeps its previous value rather than being set to
`true`. -/
theorem C2_passive_stop :
    ∀ s : UVMInterpreter, s.pc ≥ s.memory.length ∨ s.memory.getD s.pc 0 = 0 →
      execute_step s = (s, false) := by
  intro s h
  simp only [execute_step]
  split
  · rfl
  · next h1 =>
    split
    · rfl
    · next h2 =>
      rcases h with h | h
      · exact absurd (Or.inr h) h1
      · exact absurd h h2

/-- Witness for C2 (amended): a fresh 10-cell machine fetches word 0
and `execute_step` returns the unchanged state with `false`. -/
theorem C2_passive_stop_witness :
    execute_step (UVMInterpreter.init 10) = (UVMInterpreter.init 10, false) :=
  C2_passive_stop (UVMInterpreter.init 10) (Or.inr rfl)

/-- C9: the `halted` flag is monotonic within a loaded program — a
halted machine is left halted (and untouched) by `execute_step`, and
only a successful `load_program` produces a state with
`halted = false`. -/
theorem C9_halted_monotonic :
    (∀ s : UVMInterpreter, s.halted = true → execute_step s = (s, false)) ∧
    (∀ (s : UVMInterpreter) (b : List Nat) (s' : UVMInterpreter),
       load_program s b = Except.ok s' → s'.halted = false) := by
  constructor
  · intro s h
    simp only [execute_step]
    rw [if_pos (Or.inl h)]
  · intro s b s' h
    simp only [load_program] at h
    split at h
    · simp at h
    · cases h
      rfl

/-- Witness for C9: a concrete halted machine stays halted, and a
concrete load produces an unhalted machine. -/
theorem C9_halted_monotonic_witness :
    execute_step ⟨[], 0, 0, true⟩ = (⟨[], 0, 0, true⟩, false) ∧
    ((⟨[], 0, 0, false⟩ : UVMInterpreter).halted = false) :=
  ⟨C9_halted_monotonic.1 ⟨[], 0, 0, true⟩ rfl,
   C9_halted_monotonic.2 (UVMInterpreter.init 0) [] ⟨[], 0, 0, false⟩ rfl⟩

/-- A running machine whose fetched word is `StoreMem 50`
(`24 ||| ((50 &&& 3) <<< 6) + 256 * (50 >>> 2) = 3224`) on 10 cells of
memory: the store is out of bounds. -/
def oob_store_machine : UVMInterpreter :=
  ⟨(3224 : Int) :: List.replicate 9 0, 7, 0, false⟩

/-- C5: every execution-time failure — an out-of-bounds operand for
LoadMem (19), StoreMem (24) or Abs (7), or an unknown opcode — makes
`execute_step` report `false`, set `halted`, and leave the program
counter unchanged; for StoreMem in particular the accumulator and the
entire memory are left untouched. -/
theorem C5_failure_halts :
    ∀ s : UVMInterpreter, s.halted = false → s.pc < s.memory.length →
      s.memory.getD s.pc 0 ≠ 0 →
      ((((decode_command (s.memory.getD s.pc 0).toNat).1 = 19 ∨
         (decode_command (s.memory.getD s.pc 0).toNat).1 = 24 ∨
         (decode_command (s.memory.getD s.pc 0).toNat).1 = 7) ∧
        (decode_command (s.memory.getD s.pc 0).toNat).2 ≥ s.memory.length) ∨
       ((decode_command (s.memory.getD s.pc 0).toNat).1 ≠ 58 ∧
        (decode_command (s.memory.getD s.pc 0).toNat).1 ≠ 19 ∧
        (decode_command (s.memory.getD s.pc 0).toNat).1 ≠ 24 ∧
        (decode_command (s.memory.getD s.pc 0).toNat).1 ≠ 7)) →
      (execute_step s).2 = false ∧ (execute_step s).1.halted = true ∧
        (execute_step s).1.pc = s.pc ∧
        ((decode_command (s.memory.getD s.pc 0).toNat).1 = 24 →
          (execute_step s).1.accumulator = s.accumulator ∧
          (execute_step s).1.memory = s.memory) := by
  intro s hh hp hw hf
  have hcond : ¬((s.halted = true) ∨ s.pc ≥ s.memory.length) := by
    rintro (h | h)
    · simp [hh] at h
    · omega
  simp only [execute_step]
  rw [if_neg hcond, if_neg hw]
  rcases hf with ⟨hopc, hoob⟩ | ⟨h58, h19, h24, h7⟩
  · rcases hopc with h | h | h
    · have n58 : ¬((decode_command (s.memory.getD s.pc 0).toNat).1 = 58) := by omega
      rw [if_neg n58, if_pos h, if_pos hoob]
      exact ⟨rfl, rfl, rfl, fun hc => absurd hc (by omega)⟩
    · have n58 : ¬((decode_command (s.memory.getD s.pc 0).toNat).1 = 58) := by omega
      have n19 : ¬((decode_command (s.memory.getD s.pc 0).toNat).1 = 19) := by omega
      rw [if_neg n58, if_neg n19, if_pos h, if_pos hoob]
      exact ⟨rfl, rfl, rfl, fun _ => ⟨rfl, rfl⟩⟩
    · have n58 : ¬((decode_command (s.memory.getD s.pc 0).toNat).1 = 58) := by omega
      have n19 : ¬((decode_command (s.memory.getD s.pc 0).toNat).1 = 19) := by omega
      have n24 : ¬((decode_command (s.memory.getD s.pc 0).toNat).1 = 24) := by omega
      rw [if_neg n58, if_neg n19, if_neg n24, if_pos h, if_pos hoob]
      exact ⟨rfl, rfl, rfl, fun hc => absurd hc (by omega)⟩
  · rw [if_neg h58, if_neg h19, if_neg h24, if_neg h7]
    exact ⟨rfl, rfl, rfl, fun hc => absurd hc h24⟩

/-- Witness for C5: the out-of-bounds scenario — `StoreMem 50` on a
10-cell machine halts at that step, preserves the accumulator (7), and
writes no memory cell. -/
theorem C5_failure_halts_witness :
    (execute_step oob_store_machine).2 = false ∧
    (execute_step oob_store_machine).1.halted = true ∧
    (execute_step oob_store_machine).1.pc = oob_store_machine.pc ∧
    ((decode_command (oob_store_machine.memory.getD oob_store_machine.pc 0).toNat).1 = 24 →
      (execute_step oob_store_machine).1.accumulator = oob_store_machine.accumulator ∧
      (execute_step oob_store_machine).1.memory = oob_store_machine.memory) :=
  C5_failure_halts oob_store_machine rfl (by decide) (by decide)
    (Or.inl ⟨Or.inr (Or.inl (by decide)), by decide⟩)

/-- A running machine whose fetched word is `Abs 1`
(`7 ||| ((1 &&& 3) <<< 6) = 71`) with a single memory cell and a
negative accumulator: the write-back address 1 is out of bounds. -/
def abs_oob_machine : UVMInterpreter :=
  ⟨[(71 : Int)], -5, 0, false⟩

/-- C8: when Abs executes with an out-of-bounds operand the step fails
and the machine halts with the program counter and memory unchanged,
but the accumulator has already been replaced by its absolute value
before the bounds check, and that mutation is not rolled back. -/
theorem C8_abs_mutation :
    ∀ s : UVMInterpreter, s.halted = false → s.pc < s.memory.length →
      s.memory.getD s.pc 0 ≠ 0 →
      (decode_command (s.memory.getD s.pc 0).toNat).1 = 7 →
      (decode_command (s.memory.getD s.pc 0).toNat).2 ≥ s.memory.length →
      execute_step s = ({ s with accumulator := |s.accumulator|, halted := true }, false) := by
  intro s hh hp hw h7 hoob
  have hcond : ¬((s.halted = true) ∨ s.pc ≥ s.memory.length) := by
    rintro (h | h)
    · simp [hh] at h
    · omega
  have n58 : ¬((decode_command (s.memory.getD s.pc 0).toNat).1 = 58) := by omega
  have n19 : ¬((decode_command (s.memory.getD s.pc 0).toNat).1 = 19) := by omega
  have n24 : ¬((decode_command (s.memory.getD s.pc 0).toNat).1 = 24) := by omega
  simp only [execute_step]
  rw [if_neg hcond, if_neg hw, if_neg n58, if_neg n19, if_neg n24, if_pos h7, if_pos hoob]

/-- Witness for C8: `Abs 1` on a 1-cell machine with accumulator -5
halts with the accumulator mutated to 5. -/
theorem C8_abs_mutation_witness :
    execute_step abs_oob_machine =
      ({ abs_oob_machine with accumulator := |abs_oob_machine.accumulator|, halted := true },
       false) :=
  C8_abs_mutation abs_oob_machine rfl (by decide) (by decide) (by decide) (by decide)

/-! ### Loading -/

/-- `getD` on an all-zero list is 0 at every index. -/
theorem getD_replicate_zero (n j : Nat) : (List.replicate n (0 : Int)).getD j 0 = 0 := by
  induction n generalizing j with
  | zero => cases j <;> rfl
  | succ n ih =>
    cases j with
    | zero => rfl
    | succ j => exact ih j

/-- The memory-filling fold of `load_program` preserves the memory
length. -/
theorem load_foldl_length (b : List Nat) (n k : Nat) :
    ((List.range k).foldl
      (fun m i => if i < m.length then m.set i (word_at b i : Int) else m)
      (List.replicate n (0 : Int))).length = n := by
  induction k with
  | zero => simp
  | succ k ih =>
    rw [List.range_succ, List.foldl_append, List.foldl_cons, List.foldl_nil]
    split
    · rw [List.length_set]
      exact ih
    · exact ih

/-- Cell `j` after the memory-filling fold of `load_program`:
instruction word `j` when `j` is below both the word count and the
memory size, 0 otherwise. -/
theorem load_foldl_getD (b : List Nat) (n : Nat) :
    ∀ k j, ((List.range k).foldl
        (fun m i => if i < m.length then m.set i (word_at b i : Int) else m)
        (List.replicate n (0 : Int))).getD j 0 =
      if j < k ∧ j < n then (word_at b j : Int) else 0 := by
  intro k
  induction k with
  | zero =>
    intro j
    simp [getD_replicate_zero]
  | succ k ih =>
    intro j
    rw [List.range_succ, List.foldl_append, List.foldl_cons, List.foldl_nil]
    have hlen := load_foldl_length b n k
    split
    · next hk =>
      rw [hlen] at hk
      by_cases hj : j = k
      · subst hj
        rw [List.getD_eq_getElem?_getD,
            List.getElem?_set_self (by rw [hlen]; exact hk)]
        rw [if_pos ⟨Nat.lt_succ_self j, hk⟩]
        rfl
      · rw [List.getD_eq_getElem?_getD,
            List.getElem?_set_ne (fun he => hj he.symm),
            ← List.getD_eq_getElem?_getD, ih j]
        have hiff : (j < k ∧ j < n) = (j < k + 1 ∧ j < n) := by
          apply propext
          constructor <;> rintro ⟨h1, h2⟩ <;> exact ⟨by omega, h2⟩
        simp only [hiff]
    · next hk =>
      rw [hlen] at hk
      rw [ih j]
      have hiff : (j < k ∧ j < n) = (j < k + 1 ∧ j < n) := by
        apply propext
        constructor <;> rintro ⟨h1, h2⟩ <;> exact ⟨by omega, h2⟩
      simp only [hiff]

/-- C6: `load_program` is all-or-nothing.  A blob whose length is not
a multiple of 5 is rejected with the malformed-program error and no new
state is produced (the length check precedes every mutation); a blob
with a multiple-of-5 length always loads, and the loaded state has
accumulator 0, program counter 0, `halted = false`, the same memory
size as before, and cell `j` holds the little-endian 40-bit instruction
word of bytes `[5j, 5j+5)` for every `j` below the word count (all
remaining cells are 0). -/
theorem C6_load_all_or_nothing :
    (∀ (s : UVMInterpreter) (b : List Nat), b.length % 5 ≠ 0 →
       load_program s b = Except.error ("invalid program size")) ∧
    (∀ (s : UVMInterpreter) (b : List Nat), b.length % 5 = 0 →
       ∃ s', load_program s b = Except.ok s') ∧
    (∀ (s : UVMInterpreter) (b : List Nat) (s' : UVMInterpreter),
       load_program s b = Except.ok s' →
       b.length % 5 = 0 ∧
       s'.accumulator = 0 ∧ s'.pc = 0 ∧ s'.halted = false ∧
       s'.memory.length = s.memory.length ∧
       ∀ j, s'.memory.getD j 0 =
         if j < b.length / 5 ∧ j < s.memory.length then (word_at b j : Int) else 0) := by
  refine ⟨?_, ?_, ?_⟩
  · intro s b h
    simp only [load_program]
    rw [if_pos h]
  · intro s b h
    simp only [load_program]
    have hne : ¬(b.length % 5 ≠ 0) := by omega
    rw [if_neg hne]
    exact ⟨_, rfl⟩
  · intro s b s' h
    simp only [load_program] at h
    split at h
    · simp at h
    · next hlen5 =>
      cases h
      exact ⟨by omega, rfl, rfl, rfl, load_foldl_length b s.memory.length _,
        fun j => load_foldl_getD b s.memory.length _ j⟩

/-- Witness for C6: a 1-byte blob is rejected; a single `LoadConst 30`
instruction (`[122, 0, 0, 0, 0]`) loads into a 4-cell machine as
`[122, 0, 0, 0]` with all other fields reset. -/
theorem C6_load_all_or_nothing_witness :
    load_program (UVMInterpreter.init 4) [0] = Except.error ("invalid program size") ∧
    (∃ s', load_program (UVMInterpreter.init 4) [122, 0, 0, 0, 0] = Except.ok s') ∧
    ((⟨[122, 0, 0, 0], 0, 0, false⟩ : UVMInterpreter).accumulator = 0 ∧
     (⟨[122, 0, 0, 0], 0, 0, false⟩ : UVMInterpreter).pc = 0 ∧
     (⟨[122, 0, 0, 0], 0, 0, false⟩ : UVMInterpreter).halted = false) :=
  ⟨C6_load_all_or_nothing.1 (UVMInterpreter.init 4) [0] (by decide),
   C6_load_all_or_nothing.2.1 (UVMInterpreter.init 4) [122, 0, 0, 0, 0] (by decide),
   let h := C6_load_all_or_nothing.2.2 (UVMInterpreter.init 4) [122, 0, 0, 0, 0]
    ⟨[122, 0, 0, 0], 0, 0, false⟩ rfl
   ⟨h.2.1, h.2.2.1, h.2.2.2.1⟩⟩

/-- C10: a well-formed blob with more instruction records than memory
cells loads without error; only the first `memory size` words are
written and the excess records are silently dropped. -/
theorem C10_excess_truncated :
    ∀ (s : UVMInterpreter) (b : List Nat), b.length % 5 = 0 →
      5 * s.memory.length < b.length →
      ∃ s', load_program s b = Except.ok s' ∧
        s'.memory.length = s.memory.length ∧
        ∀ j, j < s.memory.length → s'.memory.getD j 0 = (word_at b j : Int) := by
  intro s b h5 hbig
  simp only [load_program]
  have hne : ¬(b.length % 5 ≠ 0) := by omega
  rw [if_neg hne]
  refine ⟨_, rfl, load_foldl_length b s.memory.length _, fun j hj => ?_⟩
  rw [load_foldl_getD]
  have hcond : j < b.length / 5 ∧ j < s.memory.length := ⟨by omega, hj⟩
  rw [if_pos hcond]

/-- Witness for C10: two instruction records loaded into a 1-cell
machine succeed, with cell 0 holding the first word (122). -/
theorem C10_excess_truncated_witness :
    ∃ s', load_program (UVMInterpreter.init 1) [122, 0, 0, 0, 0, 186, 0, 0, 0, 0] =
        Except.ok s' ∧
      s'.memory.length = (UVMInterpreter.init 1).memory.length ∧
      ∀ j, j < (UVMInterpreter.init 1).memory.length →
        s'.memory.getD j 0 = (word_at [122, 0, 0, 0, 0, 186, 0, 0, 0, 0] j : Int) :=
  C10_excess_truncated (UVMInterpreter.init 1) [122, 0, 0, 0, 0, 186, 0, 0, 0, 0]
    (by decide) (by decide)

/-! ### End-to-end scenario -/

/-- The end-to-end demo program of the specification, as symbolic
instructions. -/
def demo_commands : List (Opcode × Int) :=
  [(Opcode.LOAD_CONST, 42), (Opcode.STORE_MEM, 100), (Opcode.LOAD_CONST, 15),
   (Opcode.ABS, 101), (Opcode.LOAD_MEM, 100)]

/-- The validated internal representation of `demo_commands`. -/
def demo_ir : List (Opcode × Nat) :=
  [(Opcode.LOAD_CONST, 42), (Opcode.STORE_MEM, 100), (Opcode.LOAD_CONST, 15),
   (Opcode.ABS, 101), (Opcode.LOAD_MEM, 100)]

/-- The 1024-cell machine with the assembled demo program loaded. -/
def demo_vm : UVMInterpreter :=
  (load_program (UVMInterpreter.init 1024) (assemble_to_bytes demo_ir)).toOption.getD
    (UVMInterpreter.init 1024)

set_option maxRecDepth 8192 in
/-- C7: assembling and loading the demo program on a 1024-cell machine
and stepping yields exactly 5 successful steps, after which the
accumulator is 42, cell 100 is 42, cell 101 is 15, and the machine is
not halted (the program counter stands at 5). -/
theorem C7_end_to_end :
    parse_program demo_commands = Except.ok demo_ir ∧
    load_program (UVMInterpreter.init 1024) (assemble_to_bytes demo_ir) = Except.ok demo_vm ∧
    (run_steps demo_vm 5).2 = true ∧
    (run_steps demo_vm 5).1.accumulator = 42 ∧
    (run_steps demo_vm 5).1.memory.getD 100 0 = 42 ∧
    (run_steps demo_vm 5).1.memory.getD 101 0 = 15 ∧
    (run_steps demo_vm 5).1.halted = false ∧
    (run_steps demo_vm 5).1.pc = 5 := by
  refine ⟨rfl, rfl, ?_, ?_, ?_, ?_, ?_, ?_⟩ <;> decide
